import Mathlib

/-!
Shallow embedding of the serving and peer-discovery core of the
rust-bitcoin-spv repository: the `BlockServer` request handlers
(`src/blockserver.rs`) and the `ConfigDB` peer store (`src/configdb.rs`),
together with theorems checking the natural-language specification
against this embedding.
-/

namespace SPV

/-- The error taxonomy of `src/error.rs` (`SPVError`).  Variants carrying
foreign error payloads are modelled with a `Nat` tag standing for the
opaque wrapped cause. -/
inductive SPVError where
  | spvBadProofOfWork
  | unconnectedHeader
  | noTip
  | noPeers
  | unknownUTXO
  | badMerkleRoot
  | downstream (s : Nat)
  | io (e : Nat)
  | db (e : Nat)
  | util (e : Nat)
  | serialize (e : Nat)
  | hammersbald (e : Nat)
  deriving DecidableEq, Repr

/-- Block hashes (`Sha256dHash`) are opaque; `iter_to_tip` yields values
that `get_header` accepts, so positions and hashes share one type. -/
abbrev Hash := Nat

/-- Block header payload (`BlockHeader`), opaque for our purposes. -/
abbrev Header := Nat

/-- Persistent reference to a stored block body (`header.block`). -/
abbrev BlockRef := Nat

/-- Transaction list of a fetched block body (`block.txdata`), opaque. -/
abbrev TxData := Nat

/-- A chain-index header record: the header itself and the optional
reference to a stored full block body (`StoredHeader` in `chaindb`). -/
structure StoredHeader where
  header : Header
  block : Option BlockRef
  deriving DecidableEq, Repr

/-- The collaborator interface of the shared chain index consumed by
`BlockServer` (spec section 6): trunk membership test, forward iteration
to the tip, header lookup and block-body fetch. -/
structure ChainDB where
  is_on_trunk : Hash → Bool
  iter_to_tip : Hash → List Hash
  get_header : Hash → Option StoredHeader
  fetch_block_by_ref : BlockRef → Except SPVError TxData

/-- Outcome of one handler invocation: normal return, an error propagated
to the dispatch loop via `?`, or a Rust panic (a fired `unwrap`). -/
inductive Outcome where
  | ok
  | err (e : SPVError)
  | panic
  deriving DecidableEq, Repr

/-- Outbound protocol replies produced by the handlers:
`NetworkMessage::Headers` carries `(header, tx_count)` pairs
(`LoneBlockHeader`), `NetworkMessage::Block` carries a header and the
transaction list. -/
inductive OutMsg where
  | headers (hs : List (Header × Nat))
  | block (h : Header) (txs : TxData)
  deriving DecidableEq, Repr

/-- Inventory type tags (`InvType` of rust-bitcoin), as used by
`get_data`. -/
inductive InvType where
  | error
  | transaction
  | block
  | witnessTransaction
  | witnessBlock
  deriving DecidableEq, Repr

/-- An inventory item: type tag plus hash (`Inventory`). -/
structure Inventory where
  inv_type : InvType
  hash : Hash
  deriving DecidableEq, Repr

/-- The header-collection loop of `get_headers`
(src/blockserver.rs:80-83): each position of the bounded trunk walk is
looked up with `get_header(..).unwrap()` and paired with a zero
transaction-count marker; a failed lookup is a panic, modelled by
`none`. -/
def collectHeaders (db : ChainDB) : List Hash → Option (List (Header × Nat))
  | [] => some []
  | i :: rest =>
    match db.get_header i with
    | none => none
    | some h => (collectHeaders db rest).map (fun t => (h.header, 0) :: t)

/-- `BlockServer::get_headers` (src/blockserver.rs:76-91): scan the
locators in order; at the first trunk hash, collect up to 2000 headers
walking to the tip and send one Headers message if any were collected;
then stop scanning.  Returns the sent messages and the outcome. -/
def get_headers (db : ChainDB) : List Hash → List OutMsg × Outcome
  | [] => ([], Outcome.ok)
  | l :: rest =>
    if db.is_on_trunk l then
      match collectHeaders db ((db.iter_to_tip l).take 2000) with
      | none => ([], Outcome.panic)
      | some hs =>
        (if hs.length > 0 then [OutMsg.headers hs] else [], Outcome.ok)
    else get_headers db rest

/-- The inner walk of `get_blocks` (src/blockserver.rs:97-103): for each
position the header is looked up with `unwrap` (panic on failure); a
position with a stored body reference fetches the body, sending one
Block message per block; a fetch failure aborts the rest via `?`. -/
def serveBlocks (db : ChainDB) : List Hash → List OutMsg × Outcome
  | [] => ([], Outcome.ok)
  | i :: rest =>
    match db.get_header i with
    | none => ([], Outcome.panic)
    | some h =>
      match h.block with
      | none => serveBlocks db rest
      | some pref =>
        match db.fetch_block_by_ref pref with
        | Except.error e => ([], Outcome.err e)
        | Except.ok txs =>
          let r := serveBlocks db rest
          (OutMsg.block h.header txs :: r.1, r.2)

/-- `BlockServer::get_blocks` (src/blockserver.rs:93-108): first-match
locator scan, then a walk over at most 500 positions serving stored
bodies. -/
def get_blocks (db : ChainDB) : List Hash → List OutMsg × Outcome
  | [] => ([], Outcome.ok)
  | l :: rest =>
    if db.is_on_trunk l then serveBlocks db ((db.iter_to_tip l).take 500)
    else get_blocks db rest

/-- `BlockServer::get_data` (src/blockserver.rs:110-123): for each
inventory item of type WitnessBlock whose hash resolves to a header with
a stored body, fetch and send the block; other items are skipped; a
fetch failure aborts the remaining items via `?`. -/
def get_data (db : ChainDB) : List Inventory → List OutMsg × Outcome
  | [] => ([], Outcome.ok)
  | inv :: rest =>
    if inv.inv_type = InvType.witnessBlock then
      match db.get_header inv.hash with
      | none => get_data db rest
      | some h =>
        match h.block with
        | none => get_data db rest
        | some pref =>
          match db.fetch_block_by_ref pref with
          | Except.error e => ([], Outcome.err e)
          | Except.ok txs =>
            let r := get_data db rest
            (OutMsg.block h.header txs :: r.1, r.2)
    else get_data db rest

/-- The first locator hash that is on the trunk: the handlers act on this
hash only. -/
def firstTrunk (db : ChainDB) (locs : List Hash) : Option Hash :=
  locs.find? db.is_on_trunk

/-- Hex digit characters as produced by Rust's `{:x}` formatting:
lowercase `0`-`9`, `a`-`f`. -/
def hexDigitChar (n : Nat) : Char :=
  if n < 10 then Char.ofNat (48 + n) else Char.ofNat (87 + n)

/-- `format!("{:4x}", d)` for a 16-bit word `d` (src/configdb.rs:143):
lowercase hex with NO leading zeros, right-aligned in a minimum width of
4 by padding with spaces on the left.  A `u16` needs at most 4 hex
digits, so the output always has exactly 4 characters. -/
def encodeWord (d : Nat) : List Char :=
  if d < 16 then [' ', ' ', ' ', hexDigitChar d]
  else if d < 256 then [' ', ' ', hexDigitChar (d / 16), hexDigitChar (d % 16)]
  else if d < 4096 then
    [' ', hexDigitChar (d / 256), hexDigitChar (d / 16 % 16), hexDigitChar (d % 16)]
  else
    [hexDigitChar (d / 4096 % 16), hexDigitChar (d / 256 % 16),
     hexDigitChar (d / 16 % 16), hexDigitChar (d % 16)]

/-- The canonical address key: the concatenation of `{:4x}` renderings of
the eight 16-bit words (the loop in `store_peer`, `ban` and
`remove_peer`). -/
def encodeKey (ws : List Nat) : List Char :=
  (ws.map encodeWord).flatten

/-- Value of one hex digit as accepted by `u16::from_str_radix(_, 16)`:
`0`-`9`, `a`-`f` and `A`-`F`. -/
def hexDigitVal (c : Char) : Option Nat :=
  if '0' ≤ c ∧ c ≤ '9' then some (c.toNat - 48)
  else if 'a' ≤ c ∧ c ≤ 'f' then some (c.toNat - 87)
  else if 'A' ≤ c ∧ c ≤ 'F' then some (c.toNat - 55)
  else none

/-- `u16::from_str_radix(s, 16)`: an optional leading `+` sign (a `-` is
an invalid digit for an unsigned type), then a non-empty run of hex
digits; whitespace is NOT accepted; the accumulated value must fit in
16 bits. -/
def from_str_radix16 (s : List Char) : Option Nat :=
  let digits := match s with
    | '+' :: rest => rest
    | _ => s
  if digits.isEmpty then none
  else digits.foldlM
    (fun acc c =>
      (hexDigitVal c).bind (fun v =>
        let x := acc * 16 + v
        if x < 65536 then some x else none)) 0

/-- The decode loop of `get_a_peer` (src/configdb.rs:198-204): split off
4-character groups and parse each with `from_str_radix(_, 16)`,
substituting 0 on parse failure (`unwrap_or(0)`). -/
def decodeGroups : Nat → List Char → List Nat
  | 0, _ => []
  | k + 1, t => (from_str_radix16 (t.take 4)).getD 0 :: decodeGroups k (t.drop 4)

/-- Decode a stored 32-character address key back into eight words. -/
def decodeKey (s : List Char) : List Nat :=
  decodeGroups 8 s

/-- One row of the `peers` table
(address text primary key, port, services, last_seen, banned_until). -/
structure PeerRec where
  address : List Char
  port : Nat
  services : Nat
  last_seen : Nat
  banned_until : Nat
  deriving DecidableEq, Repr

/-- Record constructor for a full `peers` row, in the column order of the
insert statement of `store_peer`. -/
def mkPeer (a : List Char) (port services last_seen banned_until : Nat) : PeerRec :=
  { address := a, port := port, services := services,
    last_seen := last_seen, banned_until := banned_until }

/-- The mutable state visible to one `ConfigTX` transaction scope: the
`peers` table rows (rowid `i+1` holds the list's element `i`) and the
dirty flag. -/
structure ConfigTX where
  peers : List PeerRec
  dirty : Bool
  deriving DecidableEq, Repr

/-- `update peers set last_seen = ? where rowid = ?` for the rowid found
by `select rowid from peers where address = ?`: update the first row
whose address equals the key (the primary key makes it unique). -/
def updateLastSeen (key : List Char) (ls : Nat) : List PeerRec → List PeerRec
  | [] => []
  | r :: rs =>
    if r.address = key then { r with last_seen := ls } :: rs
    else r :: updateLastSeen key ls rs

/-- `ConfigTX::store_peer` (src/configdb.rs:139-156): encode the address
words to the canonical key; if a row with this key exists, update only
its `last_seen`; otherwise insert a full new row. -/
def store_peer (st : ConfigTX) (words : List Nat)
    (port services last_seen banned_until : Nat) : ConfigTX :=
  let s := encodeKey words
  { peers :=
      if (st.peers.find? (fun r => decide (r.address = s))).isSome then
        updateLastSeen s last_seen st.peers
      else
        st.peers ++ [mkPeer s port services last_seen banned_until],
    dirty := true }

/-- `ConfigTX::ban` (src/configdb.rs:159-168): set `banned_until` of
every row keyed by the canonicalized address to `now + 2*24*60`
(a `u32` addition, hence the reduction modulo `2^32`) and return the
number of matched rows; the dirty flag is set unconditionally. -/
def ban (st : ConfigTX) (words : List Nat) (now : Nat) : ConfigTX × Nat :=
  let s := encodeKey words
  let banned_until := (now + 2 * 24 * 60) % 2 ^ 32
  ({ peers := st.peers.map
       (fun r => if r.address = s then { r with banned_until := banned_until } else r),
     dirty := true },
   st.peers.countP (fun r => decide (r.address = s)))

/-- `ConfigTX::remove_peer` (src/configdb.rs:171-179): delete every row
keyed by the canonicalized address and return the number of deleted
rows; the dirty flag is set unconditionally. -/
def remove_peer (st : ConfigTX) (words : List Nat) : ConfigTX × Nat :=
  let s := encodeKey words
  ({ peers := st.peers.filter (fun r => !decide (r.address = s)), dirty := true },
   st.peers.countP (fun r => decide (r.address = s)))

/-- A 64-bit draw of `rng.next_u64()` reinterpreted as `i64`
(`as i64`): two's-complement, so values at or above `2^63` become
negative. -/
def toSigned64 (d : Nat) : Int :=
  if d < 2 ^ 63 then (d : Int) else (d : Int) - 2 ^ 64

/-- `(rng.next_u64() as i64) % n_peers + 1` (src/configdb.rs:192); Rust's
`%` on `i64` is the truncated remainder, `Int.tmod`. -/
def rowidOf (d n : Nat) : Int :=
  (toSigned64 d).tmod (n : Int) + 1

/-- `select address, port, services from peers where rowid = ? and
banned_until < ?`: the row at the given rowid, provided the rowid refers
to a row and that row's `banned_until` is strictly below `now`. -/
def fetchRow (peers : List PeerRec) (rowid : Int) (now : Nat) : Option PeerRec :=
  if 1 ≤ rowid then
    (peers.get? (rowid.toNat - 1)).bind
      (fun r => if r.banned_until < now then some r else none)
  else none

/-- A network address as handed back by `get_a_peer` (the rust-bitcoin
`Address`): eight 16-bit words, port and service flags. -/
structure Address where
  address : List Nat
  port : Nat
  services : Nat
  deriving DecidableEq, Repr

/-- Socket addresses are opaque to this layer; `Address::socket_addr()`
produces one (or fails) and the exclusion set contains them. -/
abbrev SockAddr := List Nat × Nat

/-- Build the `Address` returned for a fetched row: decode the stored
key, keep port and services (src/configdb.rs:198-209). -/
def rowAddress (r : PeerRec) : Address :=
  { address := decodeKey r.address, port := r.port, services := r.services }

/-- The attempt loop of `get_a_peer` (src/configdb.rs:191-216), one list
element per draw of `rng.next_u64()`: compute a rowid, fetch the row if
it exists and is not banned, decode it, and return it when
`socket_addr()` succeeds (`sock` models that conversion) and the result
is not in the exclusion set; otherwise try the next draw. -/
def get_a_peer_loop (sock : Address → Option SockAddr) (peers : List PeerRec)
    (earlier : List SockAddr) (now : Nat) : List Nat → Except SPVError Address
  | [] => Except.error SPVError.noPeers
  | d :: rest =>
    match fetchRow peers (rowidOf d peers.length) now with
    | none => get_a_peer_loop sock peers earlier now rest
    | some r =>
      let peer := rowAddress r
      match sock peer with
      | none => get_a_peer_loop sock peers earlier now rest
      | some addr =>
        if addr ∈ earlier then get_a_peer_loop sock peers earlier now rest
        else Except.ok peer

/-- `ConfigTX::get_a_peer` (src/configdb.rs:182-218): fail at once on an
empty table, otherwise run up to 100 random attempts. -/
def get_a_peer (sock : Address → Option SockAddr) (st : ConfigTX)
    (earlier : List SockAddr) (now : Nat) (draws : List Nat) : Except SPVError Address :=
  if st.peers.length = 0 then Except.error SPVError.noPeers
  else get_a_peer_loop sock st.peers earlier now (draws.take 100)

/-! Helper lemmas shared by the claim theorems. -/

theorem collectHeaders_eq_none_iff (db : ChainDB) (ids : List Hash) :
    collectHeaders db ids = none ↔ ∃ i ∈ ids, db.get_header i = none := by
  induction ids with
  | nil => simp [collectHeaders]
  | cons i rest ih =>
    cases hg : db.get_header i with
    | none => simp [collectHeaders, hg]
    | some h => simp [collectHeaders, hg, ih]

theorem get_headers_of_firstTrunk_none (db : ChainDB) (locs : List Hash)
    (h : firstTrunk db locs = none) : get_headers db locs = ([], Outcome.ok) := by
  induction locs with
  | nil => rfl
  | cons l rest ih =>
    cases ht : db.is_on_trunk l with
    | true =>
      rw [firstTrunk, List.find?_cons_of_pos _ ht] at h
      exact absurd h (by simp)
    | false =>
      rw [firstTrunk, List.find?_cons_of_neg _ (by simp [ht])] at h
      simpa [get_headers, ht] using ih h

theorem get_headers_of_firstTrunk_some (db : ChainDB) (locs : List Hash) (l : Hash)
    (h : firstTrunk db locs = some l) :
    get_headers db locs =
      match collectHeaders db ((db.iter_to_tip l).take 2000) with
      | none => ([], Outcome.panic)
      | some hs => ((if hs.length > 0 then [OutMsg.headers hs] else []), Outcome.ok) := by
  induction locs with
  | nil => simp [firstTrunk] at h
  | cons l0 rest ih =>
    cases ht : db.is_on_trunk l0 with
    | true =>
      rw [firstTrunk, List.find?_cons_of_pos _ ht] at h
      cases h
      simp [get_headers, ht]
    | false =>
      rw [firstTrunk, List.find?_cons_of_neg _ (by simp [ht])] at h
      simpa [get_headers, ht] using ih h

theorem get_blocks_of_firstTrunk_none (db : ChainDB) (locs : List Hash)
    (h : firstTrunk db locs = none) : get_blocks db locs = ([], Outcome.ok) := by
  induction locs with
  | nil => rfl
  | cons l rest ih =>
    cases ht : db.is_on_trunk l with
    | true =>
      rw [firstTrunk, List.find?_cons_of_pos _ ht] at h
      exact absurd h (by simp)
    | false =>
      rw [firstTrunk, List.find?_cons_of_neg _ (by simp [ht])] at h
      simpa [get_blocks, ht] using ih h

theorem get_blocks_of_firstTrunk_some (db : ChainDB) (locs : List Hash) (l : Hash)
    (h : firstTrunk db locs = some l) :
    get_blocks db locs = serveBlocks db ((db.iter_to_tip l).take 500) := by
  induction locs with
  | nil => simp [firstTrunk] at h
  | cons l0 rest ih =>
    cases ht : db.is_on_trunk l0 with
    | true =>
      rw [firstTrunk, List.find?_cons_of_pos _ ht] at h
      cases h
      simp [get_blocks, ht]
    | false =>
      rw [firstTrunk, List.find?_cons_of_neg _ (by simp [ht])] at h
      simpa [get_blocks, ht] using ih h

theorem serveBlocks_ne_panic (db : ChainDB) (ids : List Hash)
    (h : ∀ i ∈ ids, (db.get_header i).isSome) :
    (serveBlocks db ids).2 ≠ Outcome.panic := by
  induction ids with
  | nil => simp [serveBlocks]
  | cons i rest ih =>
    have hi := h i (by simp)
    have hrest : ∀ j ∈ rest, (db.get_header j).isSome := fun j hj => h j (by simp [hj])
    cases hg : db.get_header i with
    | none => rw [hg] at hi; simp at hi
    | some hd =>
      cases hb : hd.block with
      | none => simpa [serveBlocks, hg, hb] using ih hrest
      | some pref =>
        cases hf : db.fetch_block_by_ref pref with
        | error e => simp [serveBlocks, hg, hb, hf]
        | ok txs => simpa [serveBlocks, hg, hb, hf] using ih hrest

theorem serveBlocks_append_of_ok (db : ChainDB) (xs ys : List Hash)
    (h : (serveBlocks db xs).2 = Outcome.ok) :
    serveBlocks db (xs ++ ys) =
      ((serveBlocks db xs).1 ++ (serveBlocks db ys).1, (serveBlocks db ys).2) := by
  induction xs with
  | nil => simp [serveBlocks]
  | cons i rest ih =>
    cases hg : db.get_header i with
    | none => simp [serveBlocks, hg] at h
    | some hd =>
      cases hb : hd.block with
      | none =>
        rw [serveBlocks, hg] at h
        simp [hb] at h
        simpa [serveBlocks, hg, hb] using ih h
      | some pref =>
        cases hf : db.fetch_block_by_ref pref with
        | error e => simp [serveBlocks, hg, hb, hf] at h
        | ok txs =>
          rw [serveBlocks, hg] at h
          simp [hb, hf] at h
          simp [serveBlocks, hg, hb, hf, ih h]

/-- Claim C2: `get_headers` scans the locators in order, acts only on the
first trunk hash — walking toward the tip for at most 2000 headers, each
with a zero tx-count marker — sends exactly one Headers reply when at
least one header was collected, and sends nothing while returning
success when no locator matched or no header was collected. -/
theorem get_headers_matches_spec (db : ChainDB) (locs : List Hash) :
    (firstTrunk db locs = none → get_headers db locs = ([], Outcome.ok)) ∧
    (∀ l hs, firstTrunk db locs = some l →
      collectHeaders db ((db.iter_to_tip l).take 2000) = some hs →
      get_headers db locs =
        ((if hs.length > 0 then [OutMsg.headers hs] else []), Outcome.ok)) := by
  refine ⟨get_headers_of_firstTrunk_none db locs, ?_⟩
  intro l hs h hc
  rw [get_headers_of_firstTrunk_some db locs l h, hc]

/-- Claim C4: `get_blocks` performs the same first-trunk-match locator
scan, walks at most 500 positions, sends one Block message per position
whose header has a stored body, silently skips positions without one,
and a body-fetch failure aborts the rest of the request and is returned
as an error. -/
theorem get_blocks_matches_spec (db : ChainDB) (locs : List Hash) :
    (firstTrunk db locs = none → get_blocks db locs = ([], Outcome.ok)) ∧
    (∀ l, firstTrunk db locs = some l →
      get_blocks db locs = serveBlocks db ((db.iter_to_tip l).take 500)) ∧
    (∀ i rest hd, db.get_header i = some hd → hd.block = none →
      serveBlocks db (i :: rest) = serveBlocks db rest) ∧
    (∀ i rest hd pref txs, db.get_header i = some hd → hd.block = some pref →
      db.fetch_block_by_ref pref = Except.ok txs →
      serveBlocks db (i :: rest) =
        (OutMsg.block hd.header txs :: (serveBlocks db rest).1, (serveBlocks db rest).2)) ∧
    (∀ i rest hd pref e, db.get_header i = some hd → hd.block = some pref →
      db.fetch_block_by_ref pref = Except.error e →
      serveBlocks db (i :: rest) = ([], Outcome.err e)) := by
  refine ⟨get_blocks_of_firstTrunk_none db locs,
          fun l h => get_blocks_of_firstTrunk_some db locs l h, ?_, ?_, ?_⟩
  · intro i rest hd hg hb
    simp [serveBlocks, hg, hb]
  · intro i rest hd pref txs hg hb hf
    simp [serveBlocks, hg, hb, hf]
  · intro i rest hd pref e hg hb hf
    simp [serveBlocks, hg, hb, hf]

/-- Claim C8: `get_data` acts only on WitnessBlock inventory items; an
item resolving to a header with a stored body yields exactly one Block
reply; items with another type tag, an unknown hash, or no stored body
produce no message and no error; a fetch failure aborts the remaining
items of the batch and is returned as an error. -/
theorem get_data_matches_spec (db : ChainDB) :
    (get_data db [] = ([], Outcome.ok)) ∧
    (∀ inv rest, inv.inv_type ≠ InvType.witnessBlock →
      get_data db (inv :: rest) = get_data db rest) ∧
    (∀ inv rest, inv.inv_type = InvType.witnessBlock → db.get_header inv.hash = none →
      get_data db (inv :: rest) = get_data db rest) ∧
    (∀ inv rest hd, inv.inv_type = InvType.witnessBlock → db.get_header inv.hash = some hd →
      hd.block = none → get_data db (inv :: rest) = get_data db rest) ∧
    (∀ inv rest hd pref txs, inv.inv_type = InvType.witnessBlock →
      db.get_header inv.hash = some hd → hd.block = some pref →
      db.fetch_block_by_ref pref = Except.ok txs →
      get_data db (inv :: rest) =
        (OutMsg.block hd.header txs :: (get_data db rest).1, (get_data db rest).2)) ∧
    (∀ inv rest hd pref e, inv.inv_type = InvType.witnessBlock →
      db.get_header inv.hash = some hd → hd.block = some pref →
      db.fetch_block_by_ref pref = Except.error e →
      get_data db (inv :: rest) = ([], Outcome.err e)) := by
  refine ⟨rfl, ?_, ?_, ?_, ?_, ?_⟩
  · intro inv rest ht
    simp [get_data, ht]
  · intro inv rest ht hg
    simp [get_data, ht, hg]
  · intro inv rest hd ht hg hb
    simp [get_data, ht, hg, hb]
  · intro inv rest hd pref txs ht hg hb hf
    simp [get_data, ht, hg, hb, hf]
  · intro inv rest hd pref e ht hg hb hf
    simp [get_data, ht, hg, hb, hf]

/-- Claim C9: in `get_headers` and `get_blocks` the per-position header
lookup is unconditionally unwrapped: when every position yielded by
`iter_to_tip` for the matched trunk hash resolves to a header, the
lookup-failure branch is unreachable (no panic); when the precondition
is violated at a reached position, the handler panics instead of
returning an error result. -/
theorem get_header_unwrap_safety (db : ChainDB) (locs : List Hash) (l : Hash)
    (h : firstTrunk db locs = some l) :
    ((∀ i ∈ (db.iter_to_tip l).take 2000, (db.get_header i).isSome) →
      (get_headers db locs).2 ≠ Outcome.panic) ∧
    ((∃ i ∈ (db.iter_to_tip l).take 2000, db.get_header i = none) →
      (get_headers db locs).2 = Outcome.panic) ∧
    ((∀ i ∈ (db.iter_to_tip l).take 500, (db.get_header i).isSome) →
      (get_blocks db locs).2 ≠ Outcome.panic) ∧
    (∀ pre bad post, (db.iter_to_tip l).take 500 = pre ++ bad :: post →
      (serveBlocks db pre).2 = Outcome.ok → db.get_header bad = none →
      (get_blocks db locs).2 = Outcome.panic) := by
  refine ⟨?_, ?_, ?_, ?_⟩
  · intro hall
    rw [get_headers_of_firstTrunk_some db locs l h]
    cases hc : collectHeaders db ((db.iter_to_tip l).take 2000) with
    | none =>
      obtain ⟨i, hi, hnone⟩ := (collectHeaders_eq_none_iff db _).mp hc
      have := hall i hi
      rw [hnone] at this
      simp at this
    | some hs => simp
  · intro hviol
    rw [get_headers_of_firstTrunk_some db locs l h]
    have hc : collectHeaders db ((db.iter_to_tip l).take 2000) = none :=
      (collectHeaders_eq_none_iff db _).mpr hviol
    rw [hc]
  · intro hall
    rw [get_blocks_of_firstTrunk_some db locs l h]
    exact serveBlocks_ne_panic db _ hall
  · intro pre bad post hsplit hok hbad
    rw [get_blocks_of_firstTrunk_some db locs l h, hsplit,
        serveBlocks_append_of_ok db pre (bad :: post) hok]
    simp [serveBlocks, hbad]

/-- Claim C1: the storage key of an address is written with `{:4x}`,
which pads words below `0x1000` with SPACES instead of zeros;
`from_str_radix` rejects a group containing spaces, so the lenient
decode turns such a word into 0.  Evaluated at the word array
`[1,0,0,0,0,0,0,0]`: the round-trip loses the word 1, refuting the
claimed round-trip for all eight-word arrays (the whole decode still
yields eight words without failing). -/
theorem hex_roundtrip_fails_on_small_word :
    decodeKey (encodeKey [1, 0, 0, 0, 0, 0, 0, 0]) = [0, 0, 0, 0, 0, 0, 0, 0] ∧
    decodeKey (encodeKey [1, 0, 0, 0, 0, 0, 0, 0]) ≠ [1, 0, 0, 0, 0, 0, 0, 0] ∧
    encodeWord 1 = [' ', ' ', ' ', '1'] ∧
    from_str_radix16 [' ', ' ', ' ', '1'] = none := by
  decide

theorem updateLastSeen_append (key : List Char) (ls : Nat) (pre : List PeerRec)
    (r : PeerRec) (post : List PeerRec) (hpre : ∀ q ∈ pre, q.address ≠ key)
    (hr : r.address = key) :
    updateLastSeen key ls (pre ++ r :: post) = pre ++ { r with last_seen := ls } :: post := by
  induction pre with
  | nil => simp [updateLastSeen, hr]
  | cons q pre ih =>
    have hq : q.address ≠ key := hpre q (by simp)
    simp [updateLastSeen, hq, ih (fun p hp => hpre p (by simp [hp]))]

theorem find?_addr_isSome (key : List Char) (pre : List PeerRec) (r : PeerRec)
    (post : List PeerRec) (hr : r.address = key) :
    ((pre ++ r :: post).find? (fun q => decide (q.address = key))).isSome = true := by
  rw [List.find?_isSome]
  exact ⟨r, by simp, by simp [hr]⟩

/-- Claim C5: `store_peer` on an address already present under its
canonical key updates only the stored last-seen field (the banned-until
argument is ignored, and the stored banned-until, port and services are
untouched); on an absent key it inserts the full record as given. -/
theorem store_peer_update_insert (st : ConfigTX) (words : List Nat)
    (port services ls bu : Nat) :
    ((∀ r ∈ st.peers, r.address ≠ encodeKey words) →
      store_peer st words port services ls bu =
        { peers := st.peers ++ [mkPeer (encodeKey words) port services ls bu],
          dirty := true }) ∧
    (∀ pre r post, st.peers = pre ++ r :: post →
      (∀ q ∈ pre, q.address ≠ encodeKey words) → r.address = encodeKey words →
      store_peer st words port services ls bu =
        { peers := pre ++ { r with last_seen := ls } :: post, dirty := true }) := by
  constructor
  · intro hnone
    have hfind : st.peers.find? (fun r => decide (r.address = encodeKey words)) = none := by
      rw [List.find?_eq_none]
      intro x hx
      simpa using hnone x hx
    simp [store_peer, hfind]
  · intro pre r post hst hpre hr
    have hsome := find?_addr_isSome (encodeKey words) pre r post hr
    unfold store_peer
    rw [hst]
    simp only []
    rw [hsome]
    simp [updateLastSeen_append (encodeKey words) ls pre r post hpre hr]

/-- Claim C6: `ban` overwrites the banned-until of every stored row
keyed by the canonicalized address with exactly `now + 2*24*60`
(2880 seconds), unconditionally — including over a later previous value
— and leaves all other rows unchanged. -/
theorem ban_sets_fixed_window (st : ConfigTX) (words : List Nat) (now : Nat)
    (h : now + 2 * 24 * 60 < 2 ^ 32) :
    (ban st words now).1.peers =
      st.peers.map (fun r =>
        if r.address = encodeKey words then { r with banned_until := now + 2880 } else r) ∧
    (ban st words now).1.dirty = true := by
  have h2 : (now + 2880) % 4294967296 = now + 2880 := by
    norm_num at h
    omega
  exact ⟨by simp [ban, h2], rfl⟩

theorem map_ban_id (key : List Char) (v : Nat) (l : List PeerRec)
    (h : ∀ r ∈ l, r.address ≠ key) :
    l.map (fun r => if r.address = key then { r with banned_until := v } else r) = l := by
  induction l with
  | nil => rfl
  | cons a rest ih =>
    have ha : a.address ≠ key := h a (by simp)
    simp [ha, ih (fun q hq => h q (by simp [hq]))]

/-- Claim C10: for an address with no stored record, `ban` and
`remove_peer` succeed reporting zero affected rows, leave the peers
table unchanged, and still mark the transaction scope dirty. -/
theorem ban_remove_missing_peer_noop (st : ConfigTX) (words : List Nat) (now : Nat)
    (h : ∀ r ∈ st.peers, r.address ≠ encodeKey words) :
    ban st words now = ({ peers := st.peers, dirty := true }, 0) ∧
    remove_peer st words = ({ peers := st.peers, dirty := true }, 0) := by
  have hcount : st.peers.countP (fun r => decide (r.address = encodeKey words)) = 0 := by
    rw [List.countP_eq_zero]
    intro a ha
    simpa using h a ha
  have hmap := map_ban_id (encodeKey words) ((now + 2880) % 4294967296) st.peers h
  constructor
  · simp [ban, hcount, hmap]
  · have hfilter : st.peers.filter (fun r => !decide (r.address = encodeKey words)) = st.peers := by
      rw [List.filter_eq_self]
      intro a ha
      simpa using h a ha
    simp [remove_peer, hcount, hfilter]

theorem fetchRow_some_mem (peers : List PeerRec) (rowid : Int) (now : Nat) (r : PeerRec)
    (h : fetchRow peers rowid now = some r) : r ∈ peers ∧ r.banned_until < now := by
  unfold fetchRow at h
  split at h
  · obtain ⟨q, hq, hf⟩ := Option.bind_eq_some.mp h
    split at hf
    · cases hf
      exact ⟨List.get?_mem hq, by assumption⟩
    · simp at hf
  · simp at h

theorem get_a_peer_loop_ok (sock : Address → Option SockAddr) (peers : List PeerRec)
    (earlier : List SockAddr) (now : Nat) (ds : List Nat) (peer : Address)
    (h : get_a_peer_loop sock peers earlier now ds = Except.ok peer) :
    ∃ r ∈ peers, r.banned_until < now ∧ peer = rowAddress r ∧
      ∃ sa, sock peer = some sa ∧ sa ∉ earlier := by
  induction ds with
  | nil => simp [get_a_peer_loop] at h
  | cons d rest ih =>
    cases hf : fetchRow peers (rowidOf d peers.length) now with
    | none =>
      simp only [get_a_peer_loop, hf] at h
      exact ih h
    | some r =>
      cases hs : sock (rowAddress r) with
      | none =>
        simp only [get_a_peer_loop, hf, hs] at h
        exact ih h
      | some sa =>
        by_cases hm : sa ∈ earlier
        · simp only [get_a_peer_loop, hf, hs, if_pos hm] at h
          exact ih h
        · simp only [get_a_peer_loop, hf, hs, if_neg hm] at h
          cases h
          obtain ⟨hr, hb⟩ := fetchRow_some_mem peers _ now r hf
          exact ⟨r, hr, hb, rfl, sa, hs, hm⟩

/-- Claim C3: whenever `get_a_peer` returns an address, that address was
decoded from a stored row whose banned-until is strictly below the
current time, and its socket address is not in the exclusion set. -/
theorem get_a_peer_excludes_and_unbanned (sock : Address → Option SockAddr)
    (st : ConfigTX) (earlier : List SockAddr) (now : Nat) (draws : List Nat)
    (peer : Address) (h : get_a_peer sock st earlier now draws = Except.ok peer) :
    ∃ r ∈ st.peers, r.banned_until < now ∧ peer = rowAddress r ∧
      ∃ sa, sock peer = some sa ∧ sa ∉ earlier := by
  rw [get_a_peer] at h
  split at h
  · exact absurd h (by simp)
  · exact get_a_peer_loop_ok sock st.peers earlier now (draws.take 100) peer h

theorem tmod_bounds (a n : Int) (hn : 0 < n) :
    (0 ≤ a → 0 ≤ a.tmod n ∧ a.tmod n < n) ∧
    (a < 0 → -n < a.tmod n ∧ a.tmod n ≤ 0) := by
  constructor
  · intro ha
    exact ⟨Int.tmod_nonneg n ha, Int.tmod_lt_of_pos a hn⟩
  · intro ha
    obtain ⟨m, rfl⟩ : ∃ m, a = Int.negSucc m := by
      cases a with
      | ofNat j => exact absurd ha (by simp)
      | negSucc m => exact ⟨m, rfl⟩
    obtain ⟨k, rfl⟩ : ∃ k : Nat, n = (k : Int) := ⟨n.toNat, by omega⟩
    have hk : 0 < k := by exact_mod_cast hn
    have hrw : Int.tmod (Int.negSucc m) (k : Int) = -(((m + 1) % k : Nat) : Int) := by
      simp [Int.tmod]
    rw [hrw]
    have h1 : (m + 1) % k < k := Nat.mod_lt _ hk
    have h2 : (((m + 1) % k : Nat) : Int) < (k : Int) := by exact_mod_cast h1
    have h3 : (0 : Int) ≤ (((m + 1) % k : Nat) : Int) := by positivity
    omega

/-- Claim C7, counterexample: the draw `2^64 - 1` (which reinterprets to
the signed value `-1`) over a two-row store yields the computed row
position 0, outside the claimed range `1..=n`. -/
theorem rowid_not_in_range_counterexample :
    rowidOf (2 ^ 64 - 1) 2 = 0 ∧
    ¬(1 ≤ rowidOf (2 ^ 64 - 1) 2 ∧ rowidOf (2 ^ 64 - 1) 2 ≤ 2) := by
  decide

/-- Claim C7, amended: the computed row position lies in the range
`(1-n)..=n`, not always in `1..=n`; it is guaranteed to lie in `1..=n`
whenever the draw, reinterpreted as a signed 64-bit value, is
nonnegative (i.e. below `2^63`); a position below 1 matches no row, so
such an attempt fetches nothing and counts as failed. -/
theorem rowid_range_amended (n d : Nat) (hn : 0 < n) (hd : d < 2 ^ 64) :
    (1 - (n : Int) ≤ rowidOf d n ∧ rowidOf d n ≤ (n : Int)) ∧
    (d < 2 ^ 63 → 1 ≤ rowidOf d n ∧ rowidOf d n ≤ (n : Int)) ∧
    (∀ peers : List PeerRec, ∀ now : Nat, rowidOf d n < 1 →
      fetchRow peers (rowidOf d n) now = none) := by
  have hn' : (0 : Int) < (n : Int) := by exact_mod_cast hn
  have hb := tmod_bounds (toSigned64 d) (n : Int) hn'
  refine ⟨?_, ?_, ?_⟩
  · rw [rowidOf]
    by_cases hdp : d < 2 ^ 63
    · have h0 : 0 ≤ toSigned64 d := by
        rw [toSigned64, if_pos hdp]
        exact Int.ofNat_nonneg d
      have := hb.1 h0
      omega
    · have h0 : toSigned64 d < 0 := by
        rw [toSigned64, if_neg hdp]
        have : (d : Int) < 2 ^ 64 := by exact_mod_cast hd
        omega
      have := hb.2 h0
      omega
  · intro hdp
    have h0 : 0 ≤ toSigned64 d := by
      rw [toSigned64, if_pos hdp]
      exact Int.ofNat_nonneg d
    have := hb.1 h0
    rw [rowidOf]
    omega
  · intro peers now hlt
    rw [fetchRow, if_neg (by omega)]

/-! Concrete instances used by the witness theorems: a tiny chain index
with one trunk hash (10) and two positions (11 without a stored body,
12 with body reference 7), a variant with a missing header record, a
variant whose body fetch fails, and a one-row peer store. -/

def dbW : ChainDB :=
  { is_on_trunk := fun h => decide (h = 10),
    iter_to_tip := fun _ => [11, 12],
    get_header := fun i =>
      if i = 11 then some { header := 100, block := none }
      else if i = 12 then some { header := 101, block := some 7 }
      else none,
    fetch_block_by_ref := fun r =>
      if r = 7 then Except.ok 70 else Except.error SPVError.noTip }

def dbP : ChainDB :=
  { dbW with get_header := fun i =>
      if i = 11 then some { header := 100, block := none } else none }

def dbE : ChainDB :=
  { dbW with fetch_block_by_ref := fun _ => Except.error SPVError.noTip }

def wW : List Nat := [1, 2, 3, 4, 5, 6, 7, 8]

def rW : PeerRec := mkPeer [] 8333 1 0 0

def rB : PeerRec := mkPeer (encodeKey wW) 1 2 3 999999999

def stW : ConfigTX := { peers := [rW], dirty := false }

def stB : ConfigTX := { peers := [rB], dirty := false }

def sockW : Address → Option SockAddr := fun a => some (a.address, a.port)

/-- Witness for claim C2 at a concrete chain index and locator list. -/
theorem get_headers_matches_spec_witness :
    get_headers dbW [5, 10] = ([OutMsg.headers [(100, 0), (101, 0)]], Outcome.ok) := by
  have h := (get_headers_matches_spec dbW [5, 10]).2 10 [(100, 0), (101, 0)] (by rfl) (by rfl)
  simpa using h

/-- Witness for claim C3: the loop returns the only stored peer, which is
unbanned and unexcluded. -/
theorem get_a_peer_excludes_and_unbanned_witness :
    ∃ r ∈ stW.peers, r.banned_until < 5 ∧ rowAddress rW = rowAddress r ∧
      ∃ sa, sockW (rowAddress rW) = some sa ∧ sa ∉ ([] : List SockAddr) :=
  get_a_peer_excludes_and_unbanned sockW stW [] 5 [0] (rowAddress rW) (by rfl)

/-- Witness for claim C4: concrete runs of the locator scan, the
skip-without-body case, the one-message-per-body case and the aborting
fetch failure. -/
theorem get_blocks_matches_spec_witness :
    get_blocks dbW [5, 10] = serveBlocks dbW ((dbW.iter_to_tip 10).take 500) ∧
    serveBlocks dbW [11] = serveBlocks dbW [] ∧
    serveBlocks dbW [12] =
      (OutMsg.block 101 70 :: (serveBlocks dbW []).1, (serveBlocks dbW []).2) ∧
    serveBlocks dbE [12] = ([], Outcome.err SPVError.noTip) := by
  refine ⟨(get_blocks_matches_spec dbW [5, 10]).2.1 10 (by rfl),
    (get_blocks_matches_spec dbW []).2.2.1 11 [] { header := 100, block := none } rfl rfl,
    (get_blocks_matches_spec dbW []).2.2.2.1 12 [] { header := 101, block := some 7 } 7 70
      rfl rfl rfl,
    (get_blocks_matches_spec dbE []).2.2.2.2 12 [] { header := 101, block := some 7 } 7
      SPVError.noTip rfl rfl rfl⟩

/-- Witness for claim C5: updating an existing row touches only
last-seen; inserting a missing row stores all fields. -/
theorem store_peer_update_insert_witness :
    store_peer { peers := [rB], dirty := false } wW 7 7 77 777 =
      { peers := [{ rB with last_seen := 77 }], dirty := true } ∧
    store_peer { peers := [], dirty := false } wW 7 7 77 777 =
      { peers := [mkPeer (encodeKey wW) 7 7 77 777], dirty := true } := by
  constructor
  · have h := (store_peer_update_insert { peers := [rB], dirty := false } wW 7 7 77 777).2
      [] rB [] rfl (by simp) rfl
    simpa using h
  · have h := (store_peer_update_insert { peers := [], dirty := false } wW 7 7 77 777).1
      (by simp)
    simpa using h

/-- Witness for claim C6 at a concrete store, address and clock value. -/
theorem ban_sets_fixed_window_witness :
    (ban stB wW 1000).1.peers =
      stB.peers.map (fun r =>
        if r.address = encodeKey wW then { r with banned_until := 1000 + 2880 } else r) ∧
    (ban stB wW 1000).1.dirty = true :=
  ban_sets_fixed_window stB wW 1000 (by norm_num)

/-- Witness for claim C7 (amended): a small draw lands in `1..=n`, and a
draw reinterpreting to a negative value yields a position below 1 whose
fetch finds nothing. -/
theorem rowid_range_amended_witness :
    (1 - ((2 : Nat) : Int) ≤ rowidOf 3 2 ∧ rowidOf 3 2 ≤ ((2 : Nat) : Int)) ∧
    (1 ≤ rowidOf 3 2 ∧ rowidOf 3 2 ≤ ((2 : Nat) : Int)) ∧
    fetchRow [] (rowidOf (2 ^ 64 - 1) 2) 5 = none :=
  ⟨(rowid_range_amended 2 3 (by decide) (by decide)).1,
   (rowid_range_amended 2 3 (by decide) (by decide)).2.1 (by decide),
   (rowid_range_amended 2 (2 ^ 64 - 1) (by decide) (by decide)).2.2 [] 5 (by decide)⟩

/-- Witness for claim C8: concrete runs of every `get_data` case. -/
theorem get_data_matches_spec_witness :
    get_data dbW [] = ([], Outcome.ok) ∧
    get_data dbW [{ inv_type := InvType.transaction, hash := 12 }] = get_data dbW [] ∧
    get_data dbW [{ inv_type := InvType.witnessBlock, hash := 99 }] = get_data dbW [] ∧
    get_data dbW [{ inv_type := InvType.witnessBlock, hash := 11 }] = get_data dbW [] ∧
    get_data dbW [{ inv_type := InvType.witnessBlock, hash := 12 }] =
      (OutMsg.block 101 70 :: (get_data dbW []).1, (get_data dbW []).2) ∧
    get_data dbE [{ inv_type := InvType.witnessBlock, hash := 12 }] =
      ([], Outcome.err SPVError.noTip) := by
  refine ⟨(get_data_matches_spec dbW).1,
    (get_data_matches_spec dbW).2.1 { inv_type := InvType.transaction, hash := 12 } []
      (by decide),
    (get_data_matches_spec dbW).2.2.1 { inv_type := InvType.witnessBlock, hash := 99 } []
      rfl rfl,
    (get_data_matches_spec dbW).2.2.2.1 { inv_type := InvType.witnessBlock, hash := 11 } []
      { header := 100, block := none } rfl rfl rfl,
    (get_data_matches_spec dbW).2.2.2.2.1 { inv_type := InvType.witnessBlock, hash := 12 } []
      { header := 101, block := some 7 } 7 70 rfl rfl rfl rfl,
    (get_data_matches_spec dbE).2.2.2.2.2 { inv_type := InvType.witnessBlock, hash := 12 } []
      { header := 101, block := some 7 } 7 SPVError.noTip rfl rfl rfl rfl⟩

/-- Witness for claim C9: with all headers present neither handler
panics; with the record for position 12 missing both handlers panic. -/
theorem get_header_unwrap_safety_witness :
    (get_headers dbW [5, 10]).2 ≠ Outcome.panic ∧
    (get_headers dbP [10]).2 = Outcome.panic ∧
    (get_blocks dbW [5, 10]).2 ≠ Outcome.panic ∧
    (get_blocks dbP [10]).2 = Outcome.panic :=
  ⟨(get_header_unwrap_safety dbW [5, 10] 10 (by rfl)).1 (by decide),
   (get_header_unwrap_safety dbP [10] 10 (by rfl)).2.1 ⟨12, by decide, rfl⟩,
   (get_header_unwrap_safety dbW [5, 10] 10 (by rfl)).2.2.1 (by decide),
   (get_header_unwrap_safety dbP [10] 10 (by rfl)).2.2.2 [11] 12 [] (by decide) rfl rfl⟩

/-- Witness for claim C10 at a concrete store and an absent address. -/
theorem ban_remove_missing_peer_noop_witness :
    ban stW [9, 9, 9, 9, 9, 9, 9, 9] 1 = ({ peers := stW.peers, dirty := true }, 0) ∧
    remove_peer stW [9, 9, 9, 9, 9, 9, 9, 9] = ({ peers := stW.peers, dirty := true }, 0) :=
  ban_remove_missing_peer_noop stW [9, 9, 9, 9, 9, 9, 9, 9] 1 (by decide)

end SPV
